import Mathlib

/-!
Verification of the toosoon-prng library: a shallow embedding of the
seed-expansion hash (cyrb128), the five 32-bit PRNG algorithms, and the
engine's derived operations, with theorems settling the specification
claims.  JavaScript 32-bit integer semantics (ToInt32 / ToUint32 /
Math.imul / shifts) are modelled over ℤ and ℕ with explicit mod 2^32;
JavaScript doubles holding exact small integers are modelled by exact
integer arithmetic, and the uniform draws by exact rationals.
-/

namespace PRNGSpec

/-- JavaScript ToUint32: reduce an integer to its value mod 2^32, as a natural. -/
def toUint32 (x : ℤ) : ℕ := (x % (2 ^ 32 : ℤ)).toNat

/-- JavaScript ToInt32: reduce an integer mod 2^32 into the signed range
[-2^31, 2^31). -/
def toInt32 (x : ℤ) : ℤ :=
  if x % (2 ^ 32 : ℤ) < 2 ^ 31 then x % (2 ^ 32 : ℤ) else x % (2 ^ 32 : ℤ) - 2 ^ 32

/-- JavaScript Math.imul: 32-bit wraparound multiplication, signed result. -/
def imul (x y : ℤ) : ℤ := toInt32 (x * y)

/-- JavaScript bitwise xor `x ^ y` (operands coerced to 32 bits, signed result). -/
def xor32 (x y : ℤ) : ℤ := toInt32 (Nat.xor (toUint32 x) (toUint32 y))

/-- JavaScript bitwise or `x | y` (operands coerced to 32 bits, signed result). -/
def or32 (x y : ℤ) : ℤ := toInt32 (Nat.lor (toUint32 x) (toUint32 y))

/-- JavaScript left shift `x << n` (32-bit wraparound, signed result). -/
def shl32 (x : ℤ) (n : ℕ) : ℤ := toInt32 (x * 2 ^ n)

/-- JavaScript unsigned right shift `x >>> n` (operand coerced to uint32). -/
def shru (x : ℤ) (n : ℕ) : ℤ := ((toUint32 x) / 2 ^ n : ℕ)

theorem toUint32_lt (x : ℤ) : toUint32 x < 2 ^ 32 := by
  have h0 : (0 : ℤ) < 2 ^ 32 := by norm_num
  have h := Int.emod_lt_of_pos x h0
  have h' := Int.emod_nonneg x (by norm_num : (2 ^ 32 : ℤ) ≠ 0)
  unfold toUint32
  omega

/-- One character step of the cyrb128 hash loop: the four accumulators are
updated sequentially, so the fourth update reads the already-updated first
accumulator, exactly as in the source. -/
def cyrb128step (h : ℤ × ℤ × ℤ × ℤ) (k : ℕ) : ℤ × ℤ × ℤ × ℤ :=
  let h1 := xor32 h.2.1 (imul (xor32 h.1 k) 597399067)
  let h2 := xor32 h.2.2.1 (imul (xor32 h.2.1 k) 2869860233)
  let h3 := xor32 h.2.2.2 (imul (xor32 h.2.2.1 k) 951274213)
  let h4 := xor32 h1 (imul (xor32 h.2.2.2 k) 2716044179)
  (h1, h2, h3, h4)

/-- Produce a 128-bit hash value from a string (given as its character codes):
the cyrb128 seed-expansion hash from the source, returning four uint32 words. -/
def cyrb128 (seed : List ℕ) : ℕ × ℕ × ℕ × ℕ :=
  let h := seed.foldl cyrb128step (1779033703, 3144134277, 1013904242, 2773480762)
  let h1 := imul (xor32 h.2.2.1 (shru h.1 18)) 597399067
  let h2 := imul (xor32 h.2.2.2 (shru h.2.1 22)) 2869860233
  let h3 := imul (xor32 h1 (shru h.2.2.1 17)) 951274213
  let h4 := imul (xor32 h2 (shru h.2.2.2 19)) 2716044179
  (toUint32 (xor32 (xor32 (xor32 h1 h2) h3) h4),
   toUint32 (xor32 h2 h1), toUint32 (xor32 h3 h1), toUint32 (xor32 h4 h1))

/-- Final 32-bit word of sfc32 (Simple Fast Counter); the source returns
this word `>>> 0` divided by 2^32. -/
def sfc32Word (a0 b0 c0 d0 : ℤ) : ℕ :=
  let a : ℤ := toUint32 a0
  let b : ℤ := toUint32 b0
  let c : ℤ := toUint32 c0
  let d : ℤ := toUint32 d0
  let t := toInt32 (a + b)
  let a := xor32 b (shru b 9)
  let b := toInt32 (c + shl32 c 3)
  let c := or32 (shl32 c 21) (shru c 11)
  let d := toInt32 (d + 1)
  let t := toInt32 (t + d)
  let c := toInt32 (c + t)
  toUint32 t

/-- Final 32-bit word of splitmix32. -/
def splitmix32Word (a0 : ℤ) : ℕ :=
  let a := toInt32 a0
  let a := toInt32 (a + 0x9e3779b9)
  let t := xor32 a (shru a 16)
  let t := imul t 0x21f0aaad
  let t := xor32 t (shru t 15)
  let t := imul t 0x735a2d97
  toUint32 (xor32 t (shru t 15))

/-- Final 32-bit word of mulberry32 (the initial `a += 0x6d2b79f5` is a plain
double addition, exact on integers of this size). -/
def mulberry32Word (a0 : ℤ) : ℕ :=
  let t := a0 + 0x6d2b79f5
  let t := imul (xor32 t (shru t 15)) (or32 t 1)
  let t := xor32 t (t + imul (xor32 t (shru t 7)) (or32 t 61))
  toUint32 (xor32 t (shru t 14))

/-- Final 32-bit word of jsf32 (Jenkins' Small Fast). -/
def jsf32Word (a0 b0 c0 d0 : ℤ) : ℕ :=
  let a := toInt32 a0
  let b := toInt32 b0
  let c := toInt32 c0
  let d := toInt32 d0
  let t := toInt32 (a - or32 (shl32 b 27) (shru b 5))
  let a := xor32 b (or32 (shl32 c 17) (shru c 15))
  let b := toInt32 (c + d)
  let c := toInt32 (d + t)
  let d := toInt32 (a + t)
  toUint32 d

/-- Final 32-bit word of xoshiro128** (the multiplications by 5 and 9 are
plain double multiplications, exact at these magnitudes). -/
def xoshiro128ssWord (a0 b0 c0 d0 : ℤ) : ℕ :=
  let t := shl32 b0 9
  let r := a0 * 5
  let r := or32 (shl32 r 7) (shru r 25) * 9
  let c := xor32 c0 a0
  let d := xor32 d0 b0
  let b := xor32 b0 c
  let a := xor32 a0 d
  let c := xor32 c t
  let d := or32 (shl32 d 11) (shru d 21)
  toUint32 r

/-- sfc32 as in the source: `(t >>> 0) / 4294967296`. -/
def sfc32 (a b c d : ℤ) : ℚ := (sfc32Word a b c d : ℚ) / 4294967296

/-- splitmix32 as in the source. -/
def splitmix32 (a : ℤ) : ℚ := (splitmix32Word a : ℚ) / 4294967296

/-- mulberry32 as in the source. -/
def mulberry32 (a : ℤ) : ℚ := (mulberry32Word a : ℚ) / 4294967296

/-- jsf32 as in the source. -/
def jsf32 (a b c d : ℤ) : ℚ := (jsf32Word a b c d : ℚ) / 4294967296

/-- xoshiro128** as in the source. -/
def xoshiro128ss (a b c d : ℤ) : ℚ := (xoshiro128ssWord a b c d : ℚ) / 4294967296

/-- The closed set of algorithm names (types.ts AlgorithmName). -/
inductive AlgorithmName
  | jsf32
  | mulberry32
  | sfc32
  | splitmix32
  | xoshiro128ss
deriving DecidableEq, Repr

/-- Dispatch `this.algorithm(...hashes)`: the selected algorithm applied to the
four hash words (splitmix32 and mulberry32 consume only the first word). -/
def applyAlgorithm (alg : AlgorithmName) (h : ℕ × ℕ × ℕ × ℕ) : ℚ :=
  match alg with
  | .jsf32 => jsf32 h.1 h.2.1 h.2.2.1 h.2.2.2
  | .mulberry32 => mulberry32 h.1
  | .sfc32 => sfc32 h.1 h.2.1 h.2.2.1 h.2.2.2
  | .splitmix32 => splitmix32 h.1
  | .xoshiro128ss => xoshiro128ss h.1 h.2.1 h.2.2.1 h.2.2.2

/-- Character codes of a string, as consumed by cyrb128 via charCodeAt. -/
def charCodes (s : String) : List ℕ := s.data.map Char.toNat

/-- State of the PRNG engine: its global seed, selected algorithm, and the
registered controllers (identified by numeric handles).  The algorithm field
holds one of the five closed-set functions; since getAlgorithm maps the five
names injectively to the five distinct functions, the field is represented by
its name tag. -/
structure PRNGState where
  seed : String
  algorithm : AlgorithmName
  controllers : List ℕ
deriving DecidableEq, Repr

/-- The process-wide engine instance `new PRNG()`: default seed the empty
string, default algorithm splitmix32, no controllers. -/
def prng : PRNGState := ⟨"", AlgorithmName.splitmix32, []⟩

/-- The switch of PRNG.getAlgorithm: name to algorithm function (represented
by its tag; each case returns the function of that name). -/
def getAlgorithm : AlgorithmName → AlgorithmName
  | .splitmix32 => .splitmix32
  | .jsf32 => .jsf32
  | .mulberry32 => .mulberry32
  | .sfc32 => .sfc32
  | .xoshiro128ss => .xoshiro128ss

/-- Value of PRNG.random: hash the effective seed `this.seed + seed` with
cyrb128 and run the selected algorithm on the four words. -/
def randomValue (gseed : String) (alg : AlgorithmName) (seed : String) : ℚ :=
  applyAlgorithm alg (cyrb128 (charCodes (gseed ++ seed)))

/-- PRNG.random as a method: returns its value and the engine state after the
call; the method body contains no assignment, so the state is returned
unchanged. -/
def PRNG.randomCall (st : PRNGState) (seed : String) : ℚ × PRNGState :=
  (randomValue st.seed st.algorithm seed, st)

/-- Value of PRNG.random on a given engine state. -/
def PRNG.random (st : PRNGState) (seed : String) : ℚ :=
  randomValue st.seed st.algorithm seed

/-- PRNG.setSeed (src/src/prng.ts): short-circuits when the seed is unchanged;
otherwise stores the new seed and invokes getValue on every registered
controller.  Returns the new state and the list of notified controllers. -/
def PRNG.setSeed (st : PRNGState) (seed : String) : PRNGState × List ℕ :=
  if st.seed = seed then (st, [])
  else ({ st with seed := seed }, st.controllers)

/-- PRNG.setAlgorithm (src/src/prng.ts): stores the named algorithm and
invokes getValue on every registered controller — there is no unchanged-name
short-circuit in this class.  Returns the new state and the notified
controllers. -/
def PRNG.setAlgorithm (st : PRNGState) (algorithm : AlgorithmName) : PRNGState × List ℕ :=
  ({ st with algorithm := getAlgorithm algorithm }, st.controllers)

/-- PRNG.setAlgorithm of the controllers-package subclass
(src/packages/controllers/src/prng.ts): returns immediately when the named
algorithm is the currently selected function; otherwise stores it and invokes
getValue on every registered controller. -/
def PRNGC.setAlgorithm (st : PRNGState) (algorithmName : AlgorithmName) : PRNGState × List ℕ :=
  if st.algorithm = getAlgorithm algorithmName then (st, [])
  else ({ st with algorithm := getAlgorithm algorithmName }, st.controllers)

/-- JavaScript Array.prototype.indexOf: first index of the element, -1 when
absent. -/
def jsIndexOf (cs : List ℕ) (c : ℕ) : ℤ :=
  if c ∈ cs then (cs.indexOf c : ℤ) else -1

/-- JavaScript Array.prototype.splice(start, 1): a negative start counts from
the end (clamped at 0), then one element is removed at the resolved start
position if any remains there. -/
def jsSpliceRemoveOne (cs : List ℕ) (start : ℤ) : List ℕ :=
  let s : ℕ := if start < 0 then (max ((cs.length : ℤ) + start) 0).toNat
               else (min start (cs.length : ℤ)).toNat
  cs.take s ++ cs.drop (s + 1)

/-- PRNG.removeController: `this.controllers.splice(this.controllers.indexOf(controller), 1)`. -/
def PRNG.removeController (cs : List ℕ) (c : ℕ) : List ℕ :=
  jsSpliceRemoveOne cs (jsIndexOf cs c)

/-- JavaScript indexing `array[i]` with an integer index: the element when the
index is in range, undefined otherwise. -/
def jsArrayGet {α : Type _} (array : List α) (i : ℤ) : Option α :=
  if 0 ≤ i then array.get? i.toNat else none

/-- PRNG.randomInt: `Math.floor(this.random(seed) * (max - min + 1) + min)`. -/
def PRNG.randomInt (st : PRNGState) (seed : String) (min max : ℚ) : ℤ :=
  ⌊PRNG.random st seed * (max - min + 1) + min⌋

/-- Exact value of JavaScript `parseFloat(x.toFixed(f))`: round the magnitude
to f decimal digits, half away from zero, and reapply the sign. -/
def toFixedVal (f : ℕ) (x : ℚ) : ℚ :=
  if x < 0 then -((round ((-x) * 10 ^ f) : ℤ) / 10 ^ f : ℚ)
  else ((round (x * 10 ^ f) : ℤ) / 10 ^ f : ℚ)

/-- PRNG.randomFloat: `parseFloat(Math.min(min + this.random(seed) * (max - min), max).toFixed(precision))`. -/
def PRNG.randomFloat (st : PRNGState) (seed : String) (min max : ℚ) (precision : ℕ) : ℚ :=
  toFixedVal precision (Min.min (min + PRNG.random st seed * (max - min)) max)

/-- PRNG.randomItem: undefined on an empty array, otherwise the element at a
pseudo-random index in [0, length-1]. -/
def PRNG.randomItem {α : Type _} (st : PRNGState) (seed : String) (array : List α) : Option α :=
  if array.length = 0 then none
  else jsArrayGet array (PRNG.randomInt st seed 0 ((array.length : ℚ) - 1))

/-- PRNG.randomObjectProperty: pick a key via randomItem over the object's
keys; return the associated value when the picked key is truthy (a non-empty
string) and the object has it.  The object is modelled as its insertion-ordered
key/value list. -/
def PRNG.randomObjectProperty {α : Type _} (st : PRNGState) (seed : String)
    (object : List (String × α)) : Option α :=
  match PRNG.randomItem st seed (object.map Prod.fst) with
  | none => none
  | some key =>
    if key ≠ "" ∧ (object.map Prod.fst).contains key then object.lookup key else none

/-- The subtracting walk of PRNG.randomIndex: return the first index whose
weight exceeds the remaining draw, or fall back to index 0 past the end. -/
def weightsWalk (weight : ℚ) (weights : List ℚ) (i : ℕ) : ℤ :=
  match weights with
  | [] => 0
  | w :: rest => if weight < w then (i : ℤ) else weightsWalk (weight - w) rest (i + 1)

/-- PRNG.randomIndex: -1 on an empty weights list; otherwise scale the draw by
the total weight and walk the list (the zero-or-negative-total console warning
has no effect on the returned value). -/
def PRNG.randomIndex (st : PRNGState) (seed : String) (weights : List ℚ) : ℤ :=
  if weights.length = 0 then -1
  else
    let totalWeight := weights.foldl (· + ·) 0
    let weight := PRNG.random st seed * totalWeight
    weightsWalk weight weights 0

/-! Helper lemmas -/

theorem sfc32Word_lt (a b c d : ℤ) : sfc32Word a b c d < 2 ^ 32 := toUint32_lt _

theorem splitmix32Word_lt (a : ℤ) : splitmix32Word a < 2 ^ 32 := toUint32_lt _

theorem mulberry32Word_lt (a : ℤ) : mulberry32Word a < 2 ^ 32 := toUint32_lt _

theorem jsf32Word_lt (a b c d : ℤ) : jsf32Word a b c d < 2 ^ 32 := toUint32_lt _

theorem xoshiro128ssWord_lt (a b c d : ℤ) : xoshiro128ssWord a b c d < 2 ^ 32 := toUint32_lt _

theorem wordQ_nonneg (w : ℕ) : 0 ≤ (w : ℚ) / 4294967296 := by positivity

theorem wordQ_lt_one {w : ℕ} (h : w < 2 ^ 32) : (w : ℚ) / 4294967296 < 1 := by
  rw [div_lt_one (by norm_num)]
  exact_mod_cast lt_of_lt_of_le h (by norm_num)

theorem applyAlgorithm_nonneg (alg : AlgorithmName) (h : ℕ × ℕ × ℕ × ℕ) :
    0 ≤ applyAlgorithm alg h := by
  cases alg <;>
    simp only [applyAlgorithm, jsf32, mulberry32, sfc32, splitmix32, xoshiro128ss] <;>
    exact wordQ_nonneg _

theorem applyAlgorithm_lt_one (alg : AlgorithmName) (h : ℕ × ℕ × ℕ × ℕ) :
    applyAlgorithm alg h < 1 := by
  cases alg <;>
    simp only [applyAlgorithm, jsf32, mulberry32, sfc32, splitmix32, xoshiro128ss]
  · exact wordQ_lt_one (jsf32Word_lt _ _ _ _)
  · exact wordQ_lt_one (mulberry32Word_lt _)
  · exact wordQ_lt_one (sfc32Word_lt _ _ _ _)
  · exact wordQ_lt_one (splitmix32Word_lt _)
  · exact wordQ_lt_one (xoshiro128ssWord_lt _ _ _ _)

theorem random_nonneg (st : PRNGState) (seed : String) : 0 ≤ PRNG.random st seed :=
  applyAlgorithm_nonneg _ _

theorem random_lt_one (st : PRNGState) (seed : String) : PRNG.random st seed < 1 :=
  applyAlgorithm_lt_one _ _

theorem floor_scale_nonneg {r : ℚ} (hr : 0 ≤ r) (n : ℚ) (hn : 0 ≤ n) :
    0 ≤ ⌊r * n⌋ := by
  rw [Int.floor_nonneg]
  exact mul_nonneg hr hn

theorem floor_scale_lt {r : ℚ} (hr : r < 1) (hr0 : 0 ≤ r) {n : ℤ} (hn : 0 < n) :
    ⌊r * (n : ℚ)⌋ < n := by
  rw [Int.floor_lt]
  calc r * (n : ℚ) < 1 * (n : ℚ) := by
        apply mul_lt_mul_of_pos_right hr
        exact_mod_cast hn
    _ = (n : ℚ) := one_mul _

theorem randomInt_bounds (st : PRNGState) (seed : String) {mn mx : ℤ} (h : mn ≤ mx) :
    mn ≤ PRNG.randomInt st seed (mn : ℚ) (mx : ℚ) ∧
      PRNG.randomInt st seed (mn : ℚ) (mx : ℚ) ≤ mx := by
  have hr0 := random_nonneg st seed
  have hr1 := random_lt_one st seed
  have hcast : ((mx : ℚ) - (mn : ℚ) + 1) = ((mx - mn + 1 : ℤ) : ℚ) := by push_cast; ring
  have hfloor : PRNG.randomInt st seed (mn : ℚ) (mx : ℚ)
      = ⌊PRNG.random st seed * ((mx - mn + 1 : ℤ) : ℚ)⌋ + mn := by
    unfold PRNG.randomInt
    rw [hcast, Int.floor_add_int]
  have hn : (0 : ℤ) < mx - mn + 1 := by omega
  have h1 : 0 ≤ ⌊PRNG.random st seed * ((mx - mn + 1 : ℤ) : ℚ)⌋ :=
    floor_scale_nonneg hr0 _ (by exact_mod_cast hn.le)
  have h2 : ⌊PRNG.random st seed * ((mx - mn + 1 : ℤ) : ℚ)⌋ < mx - mn + 1 :=
    floor_scale_lt hr1 hr0 hn
  omega

theorem toFixedVal_abs_le (f : ℕ) (x : ℚ) : |PRNGSpec.toFixedVal f x - x| ≤ 1 / (2 * 10 ^ f) := by
  have hpow : (0 : ℚ) < 10 ^ f := by positivity
  have key : ∀ y : ℚ, |((round (y * 10 ^ f) : ℤ) / 10 ^ f : ℚ) - y| ≤ 1 / (2 * 10 ^ f) := by
    intro y
    have h := abs_sub_round (y * 10 ^ f)
    have heq : ((round (y * 10 ^ f) : ℤ) / 10 ^ f : ℚ) - y
        = -((y * 10 ^ f - (round (y * 10 ^ f) : ℤ)) / 10 ^ f) := by
      field_simp
      ring
    rw [heq, abs_neg, abs_div, abs_of_pos hpow, div_le_div_iff₀ hpow (by positivity)]
    calc |y * 10 ^ f - (round (y * 10 ^ f) : ℤ)| * (2 * 10 ^ f)
        ≤ (1 / 2) * (2 * 10 ^ f) := by
          apply mul_le_mul_of_nonneg_right h (by positivity)
      _ = 1 * 10 ^ f := by ring
  unfold toFixedVal
  by_cases hx : x < 0
  · rw [if_pos hx]
    have := key (-x)
    calc |-((round (-x * 10 ^ f) : ℤ) / 10 ^ f : ℚ) - x|
        = |((round (-x * 10 ^ f) : ℤ) / 10 ^ f : ℚ) - (-x)| := by
          rw [← abs_neg]; ring_nf
      _ ≤ 1 / (2 * 10 ^ f) := this
  · rw [if_neg hx]
    exact key x

theorem weightsWalk_cases (weights : List ℚ) :
    ∀ (w : ℚ) (i : ℕ), weightsWalk w weights i = 0 ∨
      ((i : ℤ) ≤ weightsWalk w weights i ∧
        weightsWalk w weights i < (i : ℤ) + weights.length) := by
  induction weights with
  | nil => intro w i; exact Or.inl rfl
  | cons x rest ih =>
    intro w i
    unfold weightsWalk
    by_cases hw : w < x
    · rw [if_pos hw]
      right
      constructor
      · exact le_refl _
      · have : (0 : ℤ) < (rest.length : ℤ) + 1 := by positivity
        simp only [List.length_cons]
        push_cast
        omega
    · rw [if_neg hw]
      rcases ih (w - x) (i + 1) with h0 | ⟨hlo, hhi⟩
      · exact Or.inl h0
      · right
        simp only [List.length_cons]
        push_cast at hlo hhi ⊢
        omega

theorem lookup_isSome_of_mem_keys {α : Type _} {k : String} {object : List (String × α)}
    (h : k ∈ object.map Prod.fst) : (object.lookup k).isSome := by
  induction object with
  | nil => simp at h
  | cons p rest ih =>
    simp only [List.map_cons, List.mem_cons] at h
    by_cases hk : k = p.1
    · simp [List.lookup, hk.symm ▸ (beq_self_eq_true p.1), hk]
    · have hmem : k ∈ rest.map Prod.fst := by
        rcases h with h | h
        · exact absurd h hk
        · exact h
      have hne : (k == p.1) = false := beq_eq_false_iff_ne.mpr hk
      simp [List.lookup, hne, ih hmem]

/-! Claim theorems -/

/-- C1: for every global seed string s, every sub-seed k, and a fixed selected
algorithm, two successive calls to random(k) after setSeed(s) return the
identical float and leave the engine state untouched; random is a pure
function of the effective seed string and the algorithm, with no state
carried between calls. -/
theorem C1_random_deterministic_and_pure :
    (∀ (st : PRNGState) (s k : String),
      (PRNG.randomCall ((PRNG.setSeed st s).1) k).1
          = (PRNG.randomCall ((PRNG.randomCall ((PRNG.setSeed st s).1) k).2) k).1
        ∧ (PRNG.randomCall ((PRNG.setSeed st s).1) k).2 = (PRNG.setSeed st s).1)
    ∧ (∀ (st st' : PRNGState) (k k' : String),
        st.seed ++ k = st'.seed ++ k' → st.algorithm = st'.algorithm →
        PRNG.random st k = PRNG.random st' k') := by
  constructor
  · intro st s k
    exact ⟨rfl, rfl⟩
  · intro st st' k k' hseed halg
    unfold PRNG.random randomValue
    rw [hseed, halg]

/-- Witness for C1 at concrete states: the engine with global seed "ab" on
sub-seed "c" agrees with the engine with global seed "a" on sub-seed "bc". -/
theorem C1_random_deterministic_and_pure_witness :
    ("ab" ++ "c" = "a" ++ "bc"
        ∧ (⟨"ab", AlgorithmName.splitmix32, []⟩ : PRNGState).algorithm
          = (⟨"a", AlgorithmName.splitmix32, []⟩ : PRNGState).algorithm)
      ∧ PRNG.random ⟨"ab", AlgorithmName.splitmix32, []⟩ "c"
        = PRNG.random ⟨"a", AlgorithmName.splitmix32, []⟩ "bc" :=
  ⟨⟨rfl, rfl⟩,
    C1_random_deterministic_and_pure.2 ⟨"ab", AlgorithmName.splitmix32, []⟩
      ⟨"a", AlgorithmName.splitmix32, []⟩ "c" "bc" rfl rfl⟩

/-- C2: every one of the five algorithm functions returns a value of the form
w / 2^32 for some 32-bit word w (0 ≤ w ≤ 2^32 - 1), hence strictly within
[0, 1); consequently random(subSeed) is always ≥ 0 and < 1. -/
theorem C2_algorithm_output_range :
    (∀ a b c d : ℤ, ∃ w : ℕ, w < 2 ^ 32 ∧ jsf32 a b c d = (w : ℚ) / 2 ^ 32)
    ∧ (∀ a : ℤ, ∃ w : ℕ, w < 2 ^ 32 ∧ mulberry32 a = (w : ℚ) / 2 ^ 32)
    ∧ (∀ a b c d : ℤ, ∃ w : ℕ, w < 2 ^ 32 ∧ sfc32 a b c d = (w : ℚ) / 2 ^ 32)
    ∧ (∀ a : ℤ, ∃ w : ℕ, w < 2 ^ 32 ∧ splitmix32 a = (w : ℚ) / 2 ^ 32)
    ∧ (∀ a b c d : ℤ, ∃ w : ℕ, w < 2 ^ 32 ∧ xoshiro128ss a b c d = (w : ℚ) / 2 ^ 32)
    ∧ (∀ (st : PRNGState) (seed : String),
        0 ≤ PRNG.random st seed ∧ PRNG.random st seed < 1) := by
  refine ⟨?_, ?_, ?_, ?_, ?_, ?_⟩
  · exact fun a b c d => ⟨jsf32Word a b c d, jsf32Word_lt a b c d, by rw [jsf32]; norm_num⟩
  · exact fun a => ⟨mulberry32Word a, mulberry32Word_lt a, by rw [mulberry32]; norm_num⟩
  · exact fun a b c d => ⟨sfc32Word a b c d, sfc32Word_lt a b c d, by rw [sfc32]; norm_num⟩
  · exact fun a => ⟨splitmix32Word a, splitmix32Word_lt a, by rw [splitmix32]; norm_num⟩
  · exact fun a b c d =>
      ⟨xoshiro128ssWord a b c d, xoshiro128ssWord_lt a b c d, by rw [xoshiro128ss]; norm_num⟩
  · exact fun st seed => ⟨random_nonneg st seed, random_lt_one st seed⟩

/-- C6: randomIndex(subSeed, []) returns -1 for every sub-seed, and
randomIndex(subSeed, [1,0,0]) returns 0 for every sub-seed and every global
seed (the entire probability mass is on index 0). -/
theorem C6_weighted_index_law (st : PRNGState) (seed : String) :
    PRNG.randomIndex st seed [] = -1 ∧ PRNG.randomIndex st seed [1, 0, 0] = 0 := by
  constructor
  · rfl
  · unfold PRNG.randomIndex
    rw [if_neg (by norm_num)]
    show weightsWalk (PRNG.random st seed * (([1, 0, 0] : List ℚ).foldl (· + ·) 0))
        [1, 0, 0] 0 = 0
    have htot : (([1, 0, 0] : List ℚ).foldl (· + ·) 0) = 1 := by norm_num [List.foldl]
    rw [htot, mul_one]
    unfold weightsWalk
    rw [if_pos (random_lt_one st seed)]
    norm_num

/-- C8: seed composition is plain string concatenation with no separator:
random(k) on an engine whose global seed is g equals random(g ++ k) on an
engine with empty global seed, and equals random("") on an engine whose
global seed is g ++ k, under the same algorithm (and any controller lists). -/
theorem C8_seed_composition (g k : String) (alg : AlgorithmName)
    (cs cs' cs'' : List ℕ) :
    PRNG.random ⟨g, alg, cs⟩ k = PRNG.random ⟨"", alg, cs'⟩ (g ++ k)
      ∧ PRNG.random ⟨g, alg, cs⟩ k = PRNG.random ⟨g ++ k, alg, cs''⟩ "" := by
  unfold PRNG.random randomValue
  constructor
  · rw [String.empty_append]
  · rw [String.append_empty]

/-- C3: for every sub-seed and all integers min ≤ max, randomInt equals
floor(random(subSeed) * (max - min + 1) + min) and lies in the inclusive
range [min, max]; when min = max it always returns min. -/
theorem C3_randomInt_range (st : PRNGState) (seed : String) (mn mx : ℤ)
    (h : mn ≤ mx) :
    PRNG.randomInt st seed (mn : ℚ) (mx : ℚ)
        = ⌊PRNG.random st seed * ((mx : ℚ) - (mn : ℚ) + 1) + (mn : ℚ)⌋
      ∧ mn ≤ PRNG.randomInt st seed (mn : ℚ) (mx : ℚ)
      ∧ PRNG.randomInt st seed (mn : ℚ) (mx : ℚ) ≤ mx
      ∧ (mn = mx → PRNG.randomInt st seed (mn : ℚ) (mx : ℚ) = mn) := by
  have hb := randomInt_bounds st seed h
  refine ⟨rfl, hb.1, hb.2, ?_⟩
  intro heq
  rw [heq] at hb ⊢
  omega

/-- Witness for C3 at the default engine, sub-seed "a", min 3, max 5. -/
theorem C3_randomInt_range_witness :
    (3 : ℤ) ≤ 5
      ∧ 3 ≤ PRNG.randomInt prng "a" ((3 : ℤ) : ℚ) ((5 : ℤ) : ℚ)
      ∧ PRNG.randomInt prng "a" ((3 : ℤ) : ℚ) ((5 : ℤ) : ℚ) ≤ 5 :=
  ⟨by norm_num, (C3_randomInt_range prng "a" 3 5 (by norm_num)).2.1,
    (C3_randomInt_range prng "a" 3 5 (by norm_num)).2.2.1⟩

/-- C9: for every non-empty weights list (including lists whose total is zero
or negative) and every sub-seed, randomIndex returns an integer i with
0 ≤ i ≤ length - 1; the -1 sentinel is returned only for the empty list. -/
theorem C9_randomIndex_valid_index (st : PRNGState) (seed : String)
    (weights : List ℚ) :
    (weights = [] → PRNG.randomIndex st seed weights = -1)
      ∧ (weights ≠ [] → 0 ≤ PRNG.randomIndex st seed weights
          ∧ PRNG.randomIndex st seed weights ≤ (weights.length : ℤ) - 1) := by
  constructor
  · intro h
    rw [h]
    rfl
  · intro h
    have hlen : 0 < weights.length := List.length_pos.mpr h
    unfold PRNG.randomIndex
    rw [if_neg (by omega)]
    show 0 ≤ weightsWalk (PRNG.random st seed * (weights.foldl (· + ·) 0)) weights 0
        ∧ weightsWalk (PRNG.random st seed * (weights.foldl (· + ·) 0)) weights 0
          ≤ (weights.length : ℤ) - 1
    rcases weightsWalk_cases weights (PRNG.random st seed * (weights.foldl (· + ·) 0)) 0
      with h0 | ⟨hlo, hhi⟩
    · rw [h0]
      omega
    · push_cast at hlo hhi
      omega

/-- Witness for C9 at the default engine, sub-seed "a", weights [2, 3]. -/
theorem C9_randomIndex_valid_index_witness :
    ([2, 3] : List ℚ) ≠ []
      ∧ 0 ≤ PRNG.randomIndex prng "a" [2, 3]
      ∧ PRNG.randomIndex prng "a" [2, 3] ≤ ((([2, 3] : List ℚ).length : ℤ) - 1) :=
  ⟨by simp, (C9_randomIndex_valid_index prng "a" [2, 3]).2 (by simp)⟩

/-- C10: removeController(c) with a controller c not present in a non-empty
controllers list removes the last element (the most recently added
controller), leaving the other elements unchanged; when c is present it
removes exactly the first occurrence of c. -/
theorem C10_removeController_splice (cs : List ℕ) (c : ℕ) :
    (c ∉ cs → cs ≠ [] → PRNG.removeController cs c = cs.dropLast)
      ∧ (c ∈ cs → PRNG.removeController cs c = cs.erase c) := by
  constructor
  · intro habs hne
    have hlen : 0 < cs.length := List.length_pos.mpr hne
    unfold PRNG.removeController jsIndexOf jsSpliceRemoveOne
    rw [if_neg habs, if_pos (by norm_num)]
    have hs : (max ((cs.length : ℤ) + -1) 0).toNat = cs.length - 1 := by omega
    rw [hs]
    show List.take (cs.length - 1) cs ++ List.drop (cs.length - 1 + 1) cs = cs.dropLast
    have hd : cs.length - 1 + 1 = cs.length := by omega
    rw [hd, List.drop_length, List.append_nil, List.dropLast_eq_take]
  · intro hmem
    unfold PRNG.removeController jsIndexOf jsSpliceRemoveOne
    rw [if_pos hmem]
    have hidx : List.indexOf c cs < cs.length := List.indexOf_lt_length.mpr hmem
    rw [if_neg (by omega), min_eq_left (by exact_mod_cast hidx.le), Int.toNat_natCast]
    clear hidx
    induction cs with
    | nil => simp at hmem
    | cons x rest ih =>
      by_cases hx : x = c
      · subst hx
        rw [List.indexOf_cons_self]
        simp [List.erase_cons_head]
      · have hmem' : c ∈ rest := by
          rcases List.mem_cons.mp hmem with h | h
          · omega
          · exact h
        rw [List.indexOf_cons_ne rest hx,
          List.erase_cons_tail (by simpa using hx)]
        simp only [Nat.succ_eq_add_one, List.take_succ_cons, List.drop_succ_cons,
          List.cons_append]
        rw [ih hmem']

/-- Witness for C10: removing the absent controller 9 from [4, 5, 6] drops the
last element, and removing the present controller 5 erases it. -/
theorem C10_removeController_splice_witness :
    ((9 : ℕ) ∉ [4, 5, 6] ∧ ([4, 5, 6] : List ℕ) ≠ []
        ∧ PRNG.removeController [4, 5, 6] 9 = ([4, 5, 6] : List ℕ).dropLast)
      ∧ ((5 : ℕ) ∈ [4, 5, 6]
        ∧ PRNG.removeController [4, 5, 6] 5 = ([4, 5, 6] : List ℕ).erase 5) :=
  ⟨⟨by decide, by decide,
      (C10_removeController_splice [4, 5, 6] 9).1 (by decide) (by decide)⟩,
    ⟨by decide, (C10_removeController_splice [4, 5, 6] 5).2 (by decide)⟩⟩

/-- C5 counterexample: on the engine of src/src/prng.ts with one registered
controller and splitmix32 selected, calling setAlgorithm with the name of the
currently selected algorithm still notifies the controller — the claimed
no-op short-circuit does not exist in this class. -/
theorem C5_setAlgorithm_counterexample :
    (⟨"", AlgorithmName.splitmix32, [0]⟩ : PRNGState).algorithm
        = AlgorithmName.splitmix32
      ∧ getAlgorithm AlgorithmName.splitmix32 = AlgorithmName.splitmix32
      ∧ (PRNG.setAlgorithm ⟨"", AlgorithmName.splitmix32, [0]⟩
          AlgorithmName.splitmix32).2 ≠ [] := by
  refine ⟨rfl, rfl, ?_⟩
  decide

/-- C5 amended: the base engine's setAlgorithm always stores the named
algorithm and notifies every registered controller exactly once, even when
the algorithm is unchanged; only the controllers-package subclass
short-circuits, notifying nobody when the named algorithm is the current one
and each registered controller exactly once otherwise. -/
theorem C5_setAlgorithm_notification (st : PRNGState) (name : AlgorithmName) :
    PRNG.setAlgorithm st name
        = ({ st with algorithm := getAlgorithm name }, st.controllers)
      ∧ (getAlgorithm name = st.algorithm → PRNGC.setAlgorithm st name = (st, []))
      ∧ (getAlgorithm name ≠ st.algorithm →
          PRNGC.setAlgorithm st name
            = ({ st with algorithm := getAlgorithm name }, st.controllers)) := by
  refine ⟨rfl, ?_, ?_⟩
  · intro h
    unfold PRNGC.setAlgorithm
    rw [if_pos h.symm]
  · intro h
    unfold PRNGC.setAlgorithm
    rw [if_neg (fun hh => h hh.symm)]

/-- Witness for C5 amended: with splitmix32 selected, the subclass call with
name splitmix32 is a genuine no-op. -/
theorem C5_setAlgorithm_notification_witness :
    getAlgorithm AlgorithmName.splitmix32
        = (⟨"", AlgorithmName.splitmix32, [0]⟩ : PRNGState).algorithm
      ∧ PRNGC.setAlgorithm ⟨"", AlgorithmName.splitmix32, [0]⟩ AlgorithmName.splitmix32
        = (⟨"", AlgorithmName.splitmix32, [0]⟩, []) :=
  ⟨rfl, (C5_setAlgorithm_notification ⟨"", AlgorithmName.splitmix32, [0]⟩
    AlgorithmName.splitmix32).2.1 rfl⟩

theorem toFixedVal_nonneg_eq (f : ℕ) (x : ℚ) (h : ¬ x < 0) :
    toFixedVal f x = ((round (x * 10 ^ f) : ℤ) / 10 ^ f : ℚ) := by
  unfold toFixedVal
  rw [if_neg h]

set_option maxRecDepth 8192 in
theorem splitmix32Word_seed_a :
    splitmix32Word (((cyrb128 (charCodes ("" ++ "a"))).1 : ℕ) : ℤ) = 3362664676 := by
  decide

theorem random_prng_a : PRNG.random prng "a" = (3362664676 : ℚ) / 4294967296 := by
  show splitmix32 (((cyrb128 (charCodes ("" ++ "a"))).1 : ℕ) : ℤ)
      = (3362664676 : ℚ) / 4294967296
  unfold splitmix32
  rw [splitmix32Word_seed_a]
  norm_num

/-- C4 counterexample: on the default engine (seed "", splitmix32), sub-seed
"a" draws ≈ 0.7829, so randomFloat("a", 0, 0.7, 0) clamps 0.548 at max 0.7 and
then rounds it up to 1, which lies outside [0, 0.7] — rounding happens after
clamping, so the returned value can exceed max. -/
theorem C4_randomFloat_counterexample :
    (0 : ℚ) ≤ 7 / 10
      ∧ PRNG.randomFloat prng "a" 0 (7 / 10) 0 = 1
      ∧ ¬((0 : ℚ) ≤ PRNG.randomFloat prng "a" 0 (7 / 10) 0
            ∧ PRNG.randomFloat prng "a" 0 (7 / 10) 0 ≤ 7 / 10) := by
  have hmin : Min.min ((0:ℚ) + (3362664676:ℚ)/4294967296 * (7/10 - 0)) (7/10)
      = (3362664676:ℚ)/4294967296 * (7/10 - 0) := by
    rw [min_def,
      if_pos (by norm_num : ((0:ℚ) + (3362664676:ℚ)/4294967296 * (7/10 - 0)) ≤ 7/10)]
    ring
  have hround : round ((3362664676:ℚ)/4294967296 * (7/10 - 0) * 10 ^ 0) = 1 := by
    rw [round_eq, Int.floor_eq_iff]
    constructor
    · norm_num
    · norm_num
  have hval : PRNG.randomFloat prng "a" 0 (7/10) 0 = 1 := by
    unfold PRNG.randomFloat
    rw [random_prng_a, hmin, toFixedVal_nonneg_eq _ _ (by norm_num), hround]
    norm_num
  refine ⟨by norm_num, hval, ?_⟩
  intro hcl
  rw [hval] at hcl
  exact absurd hcl.2 (by norm_num)

/-- C4 amended: randomFloat computes min + random(subSeed)*(max-min), clamps
it not to exceed max, and rounds to the given number of decimal digits; for
min ≤ max the clamped pre-rounding value lies in [min, max] and the returned
value differs from it by at most 5·10^-(precision+1), but the rounding step
can move the result outside [min, max]. -/
theorem C4_randomFloat_clamped_rounded (st : PRNGState) (seed : String)
    (mn mx : ℚ) (p : ℕ) (h : mn ≤ mx) :
    PRNG.randomFloat st seed mn mx p
        = toFixedVal p (Min.min (mn + PRNG.random st seed * (mx - mn)) mx)
      ∧ mn ≤ Min.min (mn + PRNG.random st seed * (mx - mn)) mx
      ∧ Min.min (mn + PRNG.random st seed * (mx - mn)) mx ≤ mx
      ∧ |PRNG.randomFloat st seed mn mx p
            - Min.min (mn + PRNG.random st seed * (mx - mn)) mx| ≤ 1 / (2 * 10 ^ p) := by
  have h0 := random_nonneg st seed
  refine ⟨rfl, ?_, min_le_right _ _, ?_⟩
  · refine le_min ?_ h
    have hnn : 0 ≤ PRNG.random st seed * (mx - mn) := mul_nonneg h0 (by linarith)
    linarith
  · exact toFixedVal_abs_le p _

/-- Witness for C4 amended at the default engine, sub-seed "a", range [0, 1],
precision 2. -/
theorem C4_randomFloat_clamped_rounded_witness :
    (0 : ℚ) ≤ 1 ∧ 0 ≤ Min.min ((0 : ℚ) + PRNG.random prng "a" * (1 - 0)) 1 :=
  ⟨by norm_num, (C4_randomFloat_clamped_rounded prng "a" 0 1 2 (by norm_num)).2.1⟩

theorem randomItem_singleton {α : Type _} (st : PRNGState) (seed : String) (x : α) :
    PRNG.randomItem st seed [x] = some x := by
  have h0 := random_nonneg st seed
  have h1 := random_lt_one st seed
  have h : PRNG.randomInt st seed 0 ((([x] : List α).length : ℚ) - 1) = 0 := by
    unfold PRNG.randomInt
    have harg : PRNG.random st seed * (((([x] : List α).length : ℚ) - 1) - 0 + 1) + 0
        = PRNG.random st seed := by
      simp only [List.length_singleton, Nat.cast_one]
      ring
    rw [harg, Int.floor_eq_zero_iff]
    exact Set.mem_Ico.mpr ⟨h0, h1⟩
  unfold PRNG.randomItem
  rw [if_neg (by norm_num : ¬([x] : List α).length = 0), h]
  rfl

theorem randomItem_mem {α : Type _} (st : PRNGState) (seed : String) (array : List α)
    (h : array ≠ []) : ∃ x, x ∈ array ∧ PRNG.randomItem st seed array = some x := by
  have hlen : 0 < array.length := List.length_pos.mpr h
  have hcast : ((array.length : ℚ) - 1) = (((array.length : ℤ) - 1 : ℤ) : ℚ) := by
    push_cast
    ring
  have hb := @randomInt_bounds st seed 0 ((array.length : ℤ) - 1) (by omega)
  rw [Int.cast_zero, ← hcast] at hb
  have h0 : 0 ≤ PRNG.randomInt st seed 0 ((array.length : ℚ) - 1) := hb.1
  have hle := hb.2
  have hlt : (PRNG.randomInt st seed 0 ((array.length : ℚ) - 1)).toNat < array.length := by
    omega
  refine ⟨array.get ⟨_, hlt⟩, List.get_mem _ _ hlt, ?_⟩
  unfold PRNG.randomItem jsArrayGet
  rw [if_neg (by omega), if_pos h0, List.get?_eq_get hlt]

/-- C7 counterexample: the map with the single key "" is non-empty, yet
randomObjectProperty returns none for it — the code's truthiness check on the
picked key treats the empty-string key as missing. -/
theorem C7_randomObjectProperty_counterexample :
    ([(("" : String), (0 : ℕ))] ≠ ([] : List (String × ℕ)))
      ∧ PRNG.randomObjectProperty prng "a" [(("" : String), (0 : ℕ))] = none := by
  refine ⟨by simp, ?_⟩
  unfold PRNG.randomObjectProperty
  rw [show ([(("" : String), (0 : ℕ))].map Prod.fst) = [""] from rfl]
  rw [randomItem_singleton]
  simp

/-- C7 amended: randomObjectProperty returns none for the empty map, and also
for a non-empty map whenever the key picked by randomItem is the empty string;
for every non-empty map none of whose keys is the empty string it returns the
value associated (by lookup) with some key of the map's key list. -/
theorem C7_randomObjectProperty_key_value {α : Type _} (st : PRNGState) (seed : String)
    (object : List (String × α)) :
    (object = [] → PRNG.randomObjectProperty st seed object = none)
      ∧ (object ≠ [] → "" ∉ object.map Prod.fst →
          ∃ k ∈ object.map Prod.fst,
            PRNG.randomObjectProperty st seed object = object.lookup k
              ∧ (object.lookup k).isSome) := by
  constructor
  · intro h
    rw [h]
    rfl
  · intro hne hkey
    have hkeys : object.map Prod.fst ≠ [] := by simpa using hne
    obtain ⟨k, hkmem, hitem⟩ := randomItem_mem st seed (object.map Prod.fst) hkeys
    have hk : k ≠ "" := fun hk => hkey (hk ▸ hkmem)
    have hcont : (object.map Prod.fst).contains k = true := by simpa using hkmem
    refine ⟨k, hkmem, ?_, lookup_isSome_of_mem_keys hkmem⟩
    unfold PRNG.randomObjectProperty
    rw [hitem]
    show (if k ≠ "" ∧ (object.map Prod.fst).contains k then object.lookup k else none)
        = object.lookup k
    rw [if_pos ⟨hk, hcont⟩]

/-- Witness for C7 amended at the default engine, sub-seed "x", the two-entry
map a ↦ 0, b ↦ 1. -/
theorem C7_randomObjectProperty_key_value_witness :
    ([(("a" : String), (0 : ℕ)), ("b", 1)] ≠ ([] : List (String × ℕ)))
      ∧ ("" ∉ [(("a" : String), (0 : ℕ)), ("b", 1)].map Prod.fst)
      ∧ ∃ k ∈ [(("a" : String), (0 : ℕ)), ("b", 1)].map Prod.fst,
          PRNG.randomObjectProperty prng "x" [(("a" : String), (0 : ℕ)), ("b", 1)]
              = [(("a" : String), (0 : ℕ)), ("b", 1)].lookup k
            ∧ ([(("a" : String), (0 : ℕ)), ("b", 1)].lookup k).isSome :=
  ⟨by simp, by simp,
    (C7_randomObjectProperty_key_value prng "x" [(("a" : String), (0 : ℕ)), ("b", 1)]).2
      (by simp) (by simp)⟩

end PRNGSpec
